import Mathlib

/-
Verification development for the mega-miyya AI code-review service.

Shallow embedding conventions:
  * JavaScript strings are modelled as `List Char`.
  * External collaborators (GitHub API calls, the AI generation call, HMAC,
    the RS256 signature) are oracle parameters supplied to the embedded
    functions; a failing remote call is an `Except.error`.
  * `JSON.parse` is modelled by an executable recursive-descent parser over a
    `Json` value type whose numbers are integers (the fractional/exponent
    number forms of full JSON are not needed by any theorem below and are
    rejected by the model parser).
  * JavaScript `NaN` (which arises from `Math.min`/`Math.max` on a value that
    does not coerce to a number) is modelled as `none : Option Int`.
-/

set_option maxRecDepth 10000

/-! ## Characters and strings -/

/-- Whitespace test used by the model for the JS `\s` class and `trim`
(restricted to the common ASCII whitespace characters). -/
def isWs (c : Char) : Bool :=
  c == ' ' || c == '\t' || c == '\n' || c == '\r'

/-- JS `String.prototype.trim`: drop whitespace from both ends. -/
def trimList (l : List Char) : List Char :=
  ((l.dropWhile isWs).reverse.dropWhile isWs).reverse

/-- `occursB pat l` decides whether `pat` occurs as a contiguous substring
of `l` (the condition for a JS regex made of literal characters to match). -/
def occursB (pat : List Char) : List Char → Bool
  | [] => pat.isPrefixOf []
  | c :: cs => pat.isPrefixOf (c :: cs) || occursB pat cs

/-- The backtick character (obtained from a string literal). -/
def tick : Char := "`".toList.headI

/-- The literal `` ``` `` (fence marker). -/
def tickPat : List Char := [tick, tick, tick]

/-- The literal `` ```json `` (opening fence marker of the first replace). -/
def jsonFencePat : List Char := [tick, tick, tick, 'j', 's', 'o', 'n']

/-- The literal `<think>`. -/
def thinkOpen : List Char := ['<', 't', 'h', 'i', 'n', 'k', '>']

/-- The literal `</think>`. -/
def thinkClose : List Char := ['<', '/', 't', 'h', 'i', 'n', 'k', '>']

/-- Scan for the first occurrence of `</think>`; return the remainder of the
string after it (the continuation point of the non-greedy `g`-flagged JS
regex `/<think>[\s\S]*?<\/think>/g`). -/
def findClose : List Char → Option (List Char)
  | [] => none
  | c :: cs =>
    if thinkClose.isPrefixOf (c :: cs) then some ((c :: cs).drop 8)
    else findClose cs

/-- Fuel-indexed worker for `cleanedResponse.replace(/<think>[\s\S]*?<\/think>/g, '')`.
At a `<think>` the regex engine matches up to the first later `</think>` and
continues scanning after the match; if no `</think>` follows anywhere the
regex can never match again (every later match would need a `</think>` in an
even smaller suffix), so the rest of the string is kept verbatim. -/
def stripThinkF : Nat → List Char → List Char
  | 0, l => l
  | _ + 1, [] => []
  | f + 1, c :: cs =>
    if thinkOpen.isPrefixOf (c :: cs) then
      match findClose ((c :: cs).drop 7) with
      | some rest => stripThinkF f rest
      | none => c :: cs
    else c :: stripThinkF f cs

/-- `replace(/<think>[\s\S]*?<\/think>/g, '')`. -/
def stripThink (l : List Char) : List Char := stripThinkF l.length l

/-- Fuel-indexed worker for `replace(/```json\s*/g, '')`: each match removes
the literal ```` ```json ```` together with the greedy run of following
whitespace, and scanning resumes after the match. -/
def stripJsonFencesF : Nat → List Char → List Char
  | 0, l => l
  | _ + 1, [] => []
  | f + 1, c :: cs =>
    if jsonFencePat.isPrefixOf (c :: cs) then
      stripJsonFencesF f (((c :: cs).drop 7).dropWhile isWs)
    else c :: stripJsonFencesF f cs

/-- `replace(/```json\s*/g, '')`. -/
def stripJsonFences (l : List Char) : List Char := stripJsonFencesF l.length l

/-- Is every character whitespace? -/
def allWs (l : List Char) : Bool := l.all isWs

/-- `replace(/```\s*$/g, '')`: the anchored pattern matches the leftmost
`` ``` `` that is followed only by whitespace up to the end of the string,
and removes it together with that whitespace (at most one match, since the
match extends to the end). -/
def stripTrailingFence : List Char → List Char
  | [] => []
  | c :: cs =>
    if tickPat.isPrefixOf (c :: cs) && allWs ((c :: cs).drop 3) then []
    else c :: stripTrailingFence cs

/-- The cleaning pipeline of `parseAIResponse` before any `JSON.parse`
attempt: trim, strip `<think>` blocks, strip ```` ```json ```` markers,
strip a trailing fence, trim again. -/
def cleanResponse (l : List Char) : List Char :=
  trimList (stripTrailingFence (stripJsonFences (stripThink (trimList l))))

/-- The brace-extraction fallback `cleanedResponse.match(/\{[\s\S]*\}/)`:
the greedy match runs from the first `{` to the last `}` of the string
(and needs that `}` to lie strictly after the `{`). -/
def extractBraces (l : List Char) : Option (List Char) :=
  match l.dropWhile (fun x => !(x == '{')) with
  | [] => none
  | c :: rest =>
    let r := rest.reverse.dropWhile (fun x => !(x == '}'))
    if r = [] then none else some (c :: r.reverse)

/-! ## JSON values and a model of `JSON.parse` -/

/-- JSON values as produced by `JSON.parse`.  Numbers are modelled as
integers (see the file header). -/
inductive Json where
  | null : Json
  | bool (b : Bool) : Json
  | num (n : Int) : Json
  | str (s : List Char) : Json
  | arr (elems : List Json) : Json
  | obj (fields : List (List Char × Json)) : Json

/-- Skip JSON whitespace. -/
def skipWsL (l : List Char) : List Char := l.dropWhile isWs

/-- Parse the body of a JSON string after the opening quote; returns the
decoded characters and the remainder after the closing quote.  The common
escapes are supported; `\u` sequences are not (no theorem needs them). -/
def parseStringBody : List Char → Option (List Char × List Char)
  | [] => none
  | c :: cs =>
    if c = '"' then some ([], cs)
    else if c = '\\' then
      match cs with
      | [] => none
      | e :: rest =>
        let ec : Option Char :=
          if e = '"' then some '"'
          else if e = '\\' then some '\\'
          else if e = '/' then some '/'
          else if e = 'n' then some '\n'
          else if e = 't' then some '\t'
          else if e = 'r' then some '\r'
          else if e = 'b' then some (Char.ofNat 8)
          else if e = 'f' then some (Char.ofNat 12)
          else none
        match ec with
        | none => none
        | some d => (parseStringBody rest).map (fun p => (d :: p.1, p.2))
    else (parseStringBody cs).map (fun p => (c :: p.1, p.2))

/-- Decimal digits to a natural number. -/
def digitsToNat (ds : List Char) : Nat :=
  ds.foldl (fun a c => a * 10 + (c.toNat - '0'.toNat)) 0

/-- Parse an integer JSON number token. -/
def parseNumberTok (l : List Char) : Option (Int × List Char) :=
  let p : Bool × List Char :=
    match l with
    | '-' :: rest => (true, rest)
    | _ => (false, l)
  let ds := p.2.takeWhile Char.isDigit
  let rest := p.2.dropWhile Char.isDigit
  if ds = [] then none
  else
    match rest with
    | '.' :: _ => none
    | 'e' :: _ => none
    | 'E' :: _ => none
    | _ => some ((if p.1 then -(digitsToNat ds : Int) else (digitsToNat ds : Int)), rest)

mutual

/-- Recursive-descent JSON value parser (fuel-indexed). -/
def parseValue : Nat → List Char → Option (Json × List Char)
  | 0, _ => none
  | f + 1, l =>
    match skipWsL l with
    | [] => none
    | c :: cs =>
      if c = '{' then parseFields f cs []
      else if c = '[' then parseElems f cs []
      else if c = '"' then (parseStringBody cs).map (fun p => (Json.str p.1, p.2))
      else if c = 't' then
        if ['r', 'u', 'e'].isPrefixOf cs then some (Json.bool true, cs.drop 3) else none
      else if c = 'f' then
        if ['a', 'l', 's', 'e'].isPrefixOf cs then some (Json.bool false, cs.drop 4) else none
      else if c = 'n' then
        if ['u', 'l', 'l'].isPrefixOf cs then some (Json.null, cs.drop 3) else none
      else (parseNumberTok (c :: cs)).map (fun p => (Json.num p.1, p.2))

/-- Parse array elements (called just after `[` or after a `,`). -/
def parseElems : Nat → List Char → List Json → Option (Json × List Char)
  | 0, _, _ => none
  | f + 1, l, acc =>
    match skipWsL l, acc with
    | ']' :: rest, [] => some (Json.arr [], rest)
    | _, _ =>
      match parseValue f l with
      | none => none
      | some (v, rest) =>
        match skipWsL rest with
        | ',' :: rest2 => parseElems f rest2 (acc ++ [v])
        | ']' :: rest2 => some (Json.arr (acc ++ [v]), rest2)
        | _ => none

/-- Parse object members (called just after `{` or after a `,`). -/
def parseFields : Nat → List Char → List (List Char × Json) → Option (Json × List Char)
  | 0, _, _ => none
  | f + 1, l, acc =>
    match skipWsL l, acc with
    | '}' :: rest, [] => some (Json.obj [], rest)
    | _, _ =>
      match skipWsL l with
      | '"' :: cs =>
        match parseStringBody cs with
        | none => none
        | some (key, rest) =>
          match skipWsL rest with
          | ':' :: rest2 =>
            match parseValue f rest2 with
            | none => none
            | some (v, rest3) =>
              match skipWsL rest3 with
              | ',' :: rest4 => parseFields f rest4 (acc ++ [(key, v)])
              | '}' :: rest4 => some (Json.obj (acc ++ [(key, v)]), rest4)
              | _ => none
          | _ => none
      | _ => none

end

/-- Model of `JSON.parse`: parse a single value and require that only
whitespace follows, otherwise fail (throw). -/
def jsonParse (l : List Char) : Option Json :=
  match parseValue (2 * l.length + 8) l with
  | some (v, rest) => if skipWsL rest = [] then some v else none
  | none => none

/-! ## JS value semantics needed by `parseAIResponse` -/

/-- JS truthiness of a parsed JSON value (`undefined` is represented by
`none : Option Json` at use sites). -/
def truthy : Json → Bool
  | Json.null => false
  | Json.bool b => b
  | Json.num n => !(n == 0)
  | Json.str s => !(s == [])
  | Json.arr _ => true
  | Json.obj _ => true

/-- JS `ToNumber` on a string: trimmed empty string is `0`; an optional sign
followed by digits is an integer; everything else is `NaN` (`none`).  (The
fractional, exponent and hex forms accepted by real JS are not needed by any
theorem below and map to `NaN` here.) -/
def strToNumber (s : List Char) : Option Int :=
  let t := trimList s
  if t = [] then some 0
  else
    match t with
    | '-' :: ds => if ds ≠ [] ∧ ds.all Char.isDigit then some (-(digitsToNat ds : Int)) else none
    | '+' :: ds => if ds ≠ [] ∧ ds.all Char.isDigit then some ((digitsToNat ds : Int)) else none
    | ds => if ds.all Char.isDigit then some ((digitsToNat ds : Int)) else none

mutual

/-- Stringification of an array element inside `Array.prototype.join`
(`null` becomes the empty string). -/
def jsElemString : Json → List Char
  | Json.null => []
  | Json.bool b => if b then "true".toList else "false".toList
  | Json.num n => (toString n).toList
  | Json.str s => s
  | Json.arr l => jsArrJoin l
  | Json.obj _ => "[object Object]".toList

/-- `Array.prototype.toString`, i.e. `join(',')`. -/
def jsArrJoin : List Json → List Char
  | [] => []
  | [x] => jsElemString x
  | x :: y :: xs => jsElemString x ++ ',' :: jsArrJoin (y :: xs)

end

/-- JS `ToNumber` of a parsed JSON value, as performed by `Math.min` /
`Math.max` on their arguments; `none` is `NaN`. -/
def jsToNumber : Json → Option Int
  | Json.null => some 0
  | Json.bool b => some (if b then 1 else 0)
  | Json.num n => some n
  | Json.str s => strToNumber s
  | Json.arr l => strToNumber (jsArrJoin l)
  | Json.obj _ => none

/-- Binary `Math.min` (NaN-propagating). -/
def mathMin (a b : Option Int) : Option Int :=
  match a, b with
  | some x, some y => some (min x y)
  | _, _ => none

/-- Binary `Math.max` (NaN-propagating). -/
def mathMax (a b : Option Int) : Option Int :=
  match a, b with
  | some x, some y => some (max x y)
  | _, _ => none

/-- Property access `v.key` on a parsed JSON value: only objects have own
properties; `JSON.parse` keeps the last of duplicate keys.  `none` is
`undefined`. -/
def fieldGet (v : Json) (key : List Char) : Option Json :=
  match v with
  | Json.obj fields => (fields.reverse.find? (fun p => decide (p.1 = key))).map (fun p => p.2)
  | _ => none

/-- JS `a || d` where `a` may be `undefined` (`none`). -/
def orTruthy (a : Option Json) (d : Json) : Json :=
  match a with
  | some x => if truthy x then x else d
  | none => d

/-- JS `a || b || d` where `a`, `b` may be `undefined`. -/
def orTruthy2 (a b : Option Json) (d : Json) : Json :=
  match a with
  | some x => if truthy x then x else orTruthy b d
  | none => orTruthy b d

/-! ## The Response Parser (`parseAIResponse` in the ai-review module) -/

/-- Runtime shape of a normalized suggestion/issue built by
`parseAIResponse` (the `Suggestion`/`Issue` TypeScript interfaces share this
shape; fields may hold arbitrary JSON values at runtime since the source
performs no type-narrowing).  `none` in the optional fields is `undefined`. -/
structure ReviewItem where
  id : Json
  type : Json
  title : Json
  description : Json
  severity : Json
  file : Option Json
  line : Option Json
  code : Option Json
  suggestedFix : Option Json

/-- Runtime shape of the `AIReview` object returned by `parseAIResponse`.
`score` is a JS number (`none` = NaN); `positiveAspects` is whatever truthy
value the payload carried (the source does not map over it). -/
structure AIReview where
  summary : Json
  score : Option Int
  suggestions : List ReviewItem
  issues : List ReviewItem
  positiveAspects : Json

def idKey : List Char := "id".toList
def typeKey : List Char := "type".toList
def titleKey : List Char := "title".toList
def messageKey : List Char := "message".toList
def descriptionKey : List Char := "description".toList
def severityKey : List Char := "severity".toList
def fileKey : List Char := "file".toList
def lineKey : List Char := "line".toList
def codeKey : List Char := "code".toList
def fixKey : List Char := "suggestedFix".toList
def summaryKey : List Char := "summary".toList
def scoreKey : List Char := "score".toList
def suggestionsKey : List Char := "suggestions".toList
def issuesKey : List Char := "issues".toList
def positiveKey : List Char := "positiveAspects".toList

/-- Build one normalized suggestion/issue from an array element `s`.
Property access on a `null` element throws a `TypeError` (`none`); every
other JSON value yields `undefined` for missing properties and so falls back
to the defaults. -/
def buildItem (idPre dType dTitle dDesc dSev : List Char) (idx : Nat) (s : Json) :
    Option ReviewItem :=
  match s with
  | Json.null => none
  | _ =>
    some
      { id := orTruthy (fieldGet s idKey) (Json.str (idPre ++ (Nat.repr (idx + 1)).toList))
        type := orTruthy (fieldGet s typeKey) (Json.str dType)
        title := orTruthy2 (fieldGet s titleKey) (fieldGet s messageKey) (Json.str dTitle)
        description :=
          orTruthy2 (fieldGet s descriptionKey) (fieldGet s messageKey) (Json.str dDesc)
        severity := orTruthy (fieldGet s severityKey) (Json.str dSev)
        file := fieldGet s fileKey
        line := fieldGet s lineKey
        code := fieldGet s codeKey
        suggestedFix := fieldGet s fixKey }

/-- `(parsed.suggestions || []).map(...)` array argument: a missing or falsy
field is `[]`; a truthy non-array has no `.map` method and throws (`none`). -/
def arrField (parsed : Json) (key : List Char) : Option (List Json) :=
  match fieldGet parsed key with
  | none => some []
  | some v =>
    if truthy v then
      match v with
      | Json.arr l => some l
      | _ => none
    else some []

/-- Index-carrying map that propagates a thrown `TypeError` (`none`). -/
def mapItems (f : Nat → Json → Option ReviewItem) : Nat → List Json → Option (List ReviewItem)
  | _, [] => some []
  | i, x :: xs =>
    match f i x with
    | none => none
    | some y =>
      match mapItems f (i + 1) xs with
      | none => none
      | some ys => some (y :: ys)

/-- `Math.max(0, Math.min(100, parsed.score || 0))`. -/
def scoreOf (parsed : Json) : Option Int :=
  mathMax (some 0) (mathMin (some 100) (jsToNumber (orTruthy (fieldGet parsed scoreKey) (Json.num 0))))

def suggestionPre : List Char := "suggestion_".toList
def issuePre : List Char := "issue_".toList
def improvementStr : List Char := "improvement".toList
def suggestionTitleStr : List Char := "Suggestion".toList
def suggestionDescStr : List Char := "Code improvement suggestion".toList
def lowStr : List Char := "low".toList
def bugStr : List Char := "bug".toList
def issueTitleStr : List Char := "Issue".toList
def issueDescStr : List Char := "Code issue found".toList
def mediumStr : List Char := "medium".toList
def noSummaryStr : List Char := "No summary provided".toList
def unableParseStr : List Char := "Unable to parse AI review response".toList

/-- The field extraction of the object-building block for a non-`null`
payload (property access throws only on `null`). -/
def buildReviewCore (parsed : Json) : Option AIReview :=
  match arrField parsed suggestionsKey with
  | none => none
  | some sl =>
    match mapItems (buildItem suggestionPre improvementStr suggestionTitleStr suggestionDescStr lowStr) 0 sl with
    | none => none
    | some sugg =>
      match arrField parsed issuesKey with
      | none => none
      | some il =>
        match mapItems (buildItem issuePre bugStr issueTitleStr issueDescStr mediumStr) 0 il with
        | none => none
        | some iss =>
          some
            { summary := orTruthy (fieldGet parsed summaryKey) (Json.str noSummaryStr)
              score := scoreOf parsed
              suggestions := sugg
              issues := iss
              positiveAspects := orTruthy (fieldGet parsed positiveKey) (Json.arr []) }

/-- The object-building block shared by both `JSON.parse` attempts in
`parseAIResponse`.  Returns `none` when the JS code would throw: property
access on a `null` payload, `.map` on a truthy non-array field, or a `null`
element inside one of the arrays. -/
def buildReview (parsed : Json) : Option AIReview :=
  match parsed with
  | Json.null => none
  | _ => buildReviewCore parsed

/-- One `JSON.parse` attempt followed by the object-building block; `none`
means control reaches the enclosing catch. -/
def attemptParse (s : List Char) : Option AIReview :=
  (jsonParse s).bind buildReview

/-- The fallback object returned when parsing fails entirely. -/
def fallbackReview : AIReview :=
  { summary := Json.str unableParseStr
    score := some 0
    suggestions := []
    issues := []
    positiveAspects := Json.arr [] }

/-- Control flow of `parseAIResponse` after cleaning: try the whole cleaned
string; if that attempt throws anywhere (parse or build), try the
brace-extracted substring; if that throws too, or there is no brace match,
return the fallback. -/
def parseCore (cleaned : List Char) : AIReview :=
  match attemptParse cleaned with
  | some r => r
  | none =>
    match extractBraces cleaned with
    | some sub =>
      match attemptParse sub with
      | some r => r
      | none => fallbackReview
    | none => fallbackReview

/-- `parseAIResponse` from the ai-review module: clean the raw generated
text, then parse.  Total: every JS exception inside the source function is
caught by its own try/catch structure. -/
def parseAIResponse (response : List Char) : AIReview :=
  parseCore (cleanResponse response)

/-! ## GitHubAppService: JWT generation and the installation cache -/

/-- The JWT claims built by `generateJWT`. -/
structure JwtPayload where
  iat : Int
  exp : Int
  iss : List Char

/-- A signed app assertion: `jwt.sign(payload, privateKey, { algorithm: 'RS256' })`
with the signature itself abstracted (external library). -/
structure SignedJwt where
  payload : JwtPayload
  key : List Char
  algorithm : List Char

def notConfiguredMsg : List Char := "GitHub App ID or Private Key not configured".toList

def rs256Str : List Char := "RS256".toList

/-- `GitHubAppService.generateJWT`.  The config strings default to `''` when
the environment variables are absent, and `''` is falsy, so a missing id or
key throws the configuration error.  `nowMs` is `Date.now()`;
`Math.floor(Date.now() / 1000)` is floor division. -/
def generateJWT (appId privateKey : List Char) (nowMs : Int) : Except (List Char) SignedJwt :=
  if appId = [] ∨ privateKey = [] then Except.error notConfiguredMsg
  else
    Except.ok
      { payload := { iat := Int.fdiv nowMs 1000, exp := Int.fdiv nowMs 1000 + 600, iss := appId }
        key := privateKey
        algorithm := rs256Str }

/-- One entry of the installation cache. -/
structure CacheEntry where
  installationId : Nat
  expiresAt : Nat
deriving DecidableEq

instance : Nonempty CacheEntry := ⟨⟨0, 0⟩⟩

/-- The `Map<string, InstallationCache>` keyed by owner. -/
def Cache : Type := List (List Char × CacheEntry)

/-- `Map.prototype.get`. -/
def cacheLookup (c : Cache) (k : List Char) : Option CacheEntry :=
  ((c : List (List Char × CacheEntry)).find? (fun p => decide (p.1 = k))).map (fun p => p.2)

/-- `Map.prototype.set` (replace any entry with the same key). -/
def cacheSet (c : Cache) (k : List Char) (v : CacheEntry) : Cache :=
  (c : List (List Char × CacheEntry)).filter (fun p => !(decide (p.1 = k))) ++ [(k, v)]

/-- `Map.prototype.delete`. -/
def cacheDelete (c : Cache) (k : List Char) : Cache :=
  (c : List (List Char × CacheEntry)).filter (fun p => !(decide (p.1 = k)))

/-- `CACHE_TTL = 24 * 60 * 60 * 1000` milliseconds. -/
def CACHE_TTL : Nat := 24 * 60 * 60 * 1000

/-- Result of one `getInstallationIdForRepo` call: the returned or thrown
value, the cache state afterwards, and how many remote installation lookups
(`fetchInstallationIdFromGitHub` calls) were performed. -/
structure ResolveOut (E : Type) where
  res : Except E Nat
  cache : Cache
  lookups : Nat

/-- The fetch-and-cache tail of `getInstallationIdForRepo` (everything after
the cache check): perform the remote lookup, and on success store the result
for the owner with a 24-hour expiry; a thrown lookup error propagates and
caches nothing. -/
def fetchAndCache {E : Type} (now : Nat) (owner : List Char)
    (fetchResult : Except E Nat) (cache : Cache) : ResolveOut E :=
  match fetchResult with
  | Except.error e => { res := Except.error e, cache := cache, lookups := 1 }
  | Except.ok iid =>
    { res := Except.ok iid
      cache := cacheSet cache owner { installationId := iid, expiresAt := now + CACHE_TTL }
      lookups := 1 }

/-- `GitHubAppService.getInstallationIdForRepo`.  `now` is `Date.now()`;
`fetchResult` is the oracle outcome of `fetchInstallationIdFromGitHub`
(a thrown error carries the remote status and body, e.g. the 404
"not installed" case; the service never inspects it).  The cache is keyed by
owner only. -/
def getInstallationIdForRepo {E : Type} (now : Nat) (owner _repo : List Char)
    (fetchResult : Except E Nat) (cache : Cache) : ResolveOut E :=
  match cacheLookup cache owner with
  | some cached =>
    if now < cached.expiresAt then
      { res := Except.ok cached.installationId, cache := cache, lookups := 0 }
    else fetchAndCache now owner fetchResult cache
  | none => fetchAndCache now owner fetchResult cache

/-- `GitHubAppService.clearInstallationCache` (the optional `repo` argument
is only logged). -/
def clearInstallationCache (owner : List Char) (cache : Cache) : Cache :=
  cacheDelete cache owner

/-- `owner` half of `repo.full_name.split('/')`. -/
def ownerOf (fullName : List Char) : List Char :=
  fullName.takeWhile (fun c => !(c == '/'))

/-- The `installation`-event branch of the webhook `POST` handler for
`action === 'deleted'`: clear the cache entry of every account owning a
repository in the payload's repository list. -/
def handleInstallationDeleted (repositories : List (List Char)) (cache : Cache) : Cache :=
  repositories.foldl (fun c full => clearInstallationCache (ownerOf full) c) cache

/-! ## The review orchestrator (`processAICodeReview` in the webhook route) -/

/-- A changed file as returned by the pull-request files listing. -/
structure GhFile where
  filename : List Char
  patch : List Char
  additions : Nat
  deletions : Nat

/-- A file together with its fetched head-commit content. -/
structure FileContent where
  filename : List Char
  content : List Char
  patch : List Char
  additions : Nat
  deletions : Nat

/-- The shape of the literal result objects the orchestrator persists
directly (`{ summary, score, suggestions: [], issues: [] }`). -/
structure LitResult where
  summary : List Char
  score : Int
  suggestions : List Json
  issues : List Json

/-- A persisted review payload: either the `AIReview` object from the
generation call or one of the literal short-circuit/failure objects. -/
inductive StoredPayload where
  | ai (r : AIReview) : StoredPayload
  | lit (r : LitResult) : StoredPayload

/-- One `updateReviewStatus(reviewId, status, reviewData)` write. -/
structure ReviewUpdate where
  status : List Char
  review : Option StoredPayload

/-- Oracle environment of one orchestration run: each field is the outcome
of the corresponding external call. -/
structure OrchEnv where
  installationId : Option Nat
  directExchange : Except Unit (List Char)
  resolverToken : Except Unit (List Char)
  filesResp : Except Unit (List GhFile)
  contentResp : GhFile → Option FileContent
  generate : List FileContent → Except Unit AIReview
  postResp : Except Unit Unit

/-- The fixed allow-list of reviewed file extensions. -/
def codeExtensions : List (List Char) :=
  ["js", "ts", "jsx", "tsx", "py", "java", "cpp", "c", "cs", "php", "rb", "go", "rs",
   "swift", "kt", "scala", "clj", "hs", "ml", "f90", "r", "m", "pl", "sh", "bash",
   "zsh", "fish", "ps1", "bat", "cmd", "sql", "html", "css", "scss", "sass", "less",
   "vue", "svelte", "astro"].map String.toList

/-- `filename.split('.').pop()?.toLowerCase()`: the segment after the last
dot (the whole name when there is no dot), lower-cased. -/
def extOf (filename : List Char) : List Char :=
  ((filename.reverse.takeWhile (fun c => !(c == '.'))).reverse).map Char.toLower

/-- The file filter of step 1. -/
def isCodeFile (f : GhFile) : Bool :=
  codeExtensions.contains (extOf f.filename)

/-- `files.filter(...)` of step 1. -/
def codeFilesOf (files : List GhFile) : List GhFile :=
  files.filter isCodeFile

/-- Step 2: `Promise.all` of the per-file content fetches followed by
`.filter(Boolean)` — failed fetches are dropped. -/
def validFilesOf (env : OrchEnv) (files : List GhFile) : List FileContent :=
  ((codeFilesOf files).map env.contentResp).filterMap id

/-- Credential acquisition: if the webhook payload carried a (truthy)
installation id, try the direct token exchange and fall back to
`getInstallationTokenForRepo` when it fails; otherwise go straight to the
dynamic lookup. -/
def credentialToken (env : OrchEnv) : Except Unit (List Char) :=
  match env.installationId with
  | some i =>
    if i = 0 then env.resolverToken
    else
      match env.directExchange with
      | Except.ok t => Except.ok t
      | Except.error _ => env.resolverToken
  | none => env.resolverToken

def failedStr : List Char := "failed".toList
def completedStr : List Char := "completed".toList
def pendingStr : List Char := "pending".toList
def noCodeSummary : List Char := "No code files to review".toList
def noContentSummary : List Char := "Unable to fetch file contents for review".toList
def failedSummary : List Char := "Review failed due to an error".toList

/-- The zero-score placeholder written by the orchestrator's catch block. -/
def failedUpdate : ReviewUpdate :=
  { status := failedStr
    review := some (StoredPayload.lit { summary := failedSummary, score := 0, suggestions := [], issues := [] }) }

/-- `processAICodeReview`: returns the single terminal
`updateReviewStatus` write of the run, and whether the summary comment was
posted successfully.  `postGitHubComment` catches every error internally and
only logs it, so the posting outcome cannot influence the record update. -/
def processAICodeReview (env : OrchEnv) : ReviewUpdate × Bool :=
  match credentialToken env with
  | Except.error _ => (failedUpdate, false)
  | Except.ok _tok =>
    match env.filesResp with
    | Except.error _ => (failedUpdate, false)
    | Except.ok files =>
      if (codeFilesOf files).isEmpty then
        ({ status := completedStr
           review := some (StoredPayload.lit { summary := noCodeSummary, score := 100, suggestions := [], issues := [] }) },
         false)
      else
        if (validFilesOf env files).isEmpty then
          ({ status := completedStr
             review := some (StoredPayload.lit { summary := noContentSummary, score := 0, suggestions := [], issues := [] }) },
           false)
        else
          match env.generate (validFilesOf env files) with
          | Except.error _ => (failedUpdate, false)
          | Except.ok aiReview =>
            ({ status := completedStr, review := some (StoredPayload.ai aiReview) },
             match env.postResp with
             | Except.ok _ => true
             | Except.error _ => false)

/-- Does the run raise an unhandled exception inside steps 1-4 (file
listing, content fetch, generation, parsing)?  Per-file content-fetch
failures are caught inside step 2 and the parser never throws, so the only
throwing steps after credential acquisition are the files listing and the
generation call. -/
def step14Threw (env : OrchEnv) : Bool :=
  match credentialToken env with
  | Except.error _ => false
  | Except.ok _ =>
    match env.filesResp with
    | Except.error _ => true
    | Except.ok files =>
      if (codeFilesOf files).isEmpty then false
      else
        if (validFilesOf env files).isEmpty then false
        else
          match env.generate (validFilesOf env files) with
          | Except.error _ => true
          | Except.ok _ => false

/-! ## The webhook `POST` handler: pull-request events and signature check -/

/-- A persisted review record (`CodeReviewModel`). -/
structure ReviewRec where
  rid : Nat
  repositoryId : Nat
  pullRequestId : Nat
  repositoryName : List Char
  status : List Char
  review : Option StoredPayload

/-- `CodeReviewModel.findOne({ repositoryId, pullRequestId })`. -/
def findReview (db : List ReviewRec) (repoId prId : Nat) : Option ReviewRec :=
  db.find? (fun r => decide (r.repositoryId = repoId) && decide (r.pullRequestId = prId))

/-- `CodeReviewModel.findById`. -/
def findById (db : List ReviewRec) (rid : Nat) : Option ReviewRec :=
  db.find? (fun r => decide (r.rid = rid))

/-- The handler's `findByIdAndUpdate(_, { status: 'pending', updatedAt })`. -/
def setPending (db : List ReviewRec) (rid : Nat) : List ReviewRec :=
  db.map (fun r => if r.rid = rid then { r with status := pendingStr } else r)

/-- `updateReviewStatus`: `findByIdAndUpdate(reviewId, { status, review, updatedAt })`
at the end of the orchestration run (overwrites the stored result). -/
def applyReviewUpdate (db : List ReviewRec) (rid : Nat) (status : List Char)
    (payload : Option StoredPayload) : List ReviewRec :=
  db.map (fun r => if r.rid = rid then { r with status := status, review := payload } else r)

def openedStr : List Char := "opened".toList
def synchronizeStr : List Char := "synchronize".toList
def reopenedStr : List Char := "reopened".toList

/-- The `pull_request`-event branch of the webhook `POST` handler.
`enabled` is whether `UserModel.findOne({ repositories: repository })`
found a user; `newId` is the id Mongo would assign to a freshly created
record.  Returns the database afterwards and the id (if any) for which
`processAICodeReview` is triggered in the background. -/
def handlePullRequest (enabled : Bool) (action : List Char) (repoId prId newId : Nat)
    (repoName : List Char) (db : List ReviewRec) : List ReviewRec × Option Nat :=
  if ¬ (action = openedStr ∨ action = synchronizeStr ∨ action = reopenedStr) then (db, none)
  else if ¬ enabled then (db, none)
  else
    match findReview db repoId prId with
    | some existing =>
      if action = openedStr then (db, none)
      else (setPending db existing.rid, some existing.rid)
    | none =>
      (db ++ [{ rid := newId, repositoryId := repoId, pullRequestId := prId,
                repositoryName := repoName, status := pendingStr, review := none }],
       some newId)

/-- `crypto.timingSafeEqual` on the two buffers: throws (`Except.error`)
when the lengths differ, otherwise compares. -/
def timingSafeEqual (a b : List Char) : Except Unit Bool :=
  if a.length ≠ b.length then Except.error () else Except.ok (decide (a = b))

def sha256Pre : List Char := "sha256=".toList

/-- `verifyWebhookSignature(body, signature)`.  `signature` is the
`x-hub-signature-256` header (`none` when absent; JS also treats an empty
header or an unset/empty `GITHUB_WEBHOOK_SECRET` as falsy, hence `[]` for
`secret` covers both unset and empty).  `hmacHex` is the external
`crypto.createHmac('sha256', secret).update(body).digest('hex')`. -/
def verifyWebhookSignature (hmacHex : List Char → List Char → List Char)
    (secret body : List Char) (signature : Option (List Char)) : Except Unit Bool :=
  match signature with
  | none => Except.ok true
  | some sig =>
    if sig = [] ∨ secret = [] then Except.ok true
    else timingSafeEqual sig (sha256Pre ++ hmacHex secret body)

/-! ## Cache lemmas -/

/-- Is there a non-expired cache entry for `owner` at time `now`? -/
def hasValidEntry (cache : Cache) (owner : List Char) (now : Nat) : Bool :=
  match cacheLookup cache owner with
  | some e => decide (now < e.expiresAt)
  | none => false

theorem cacheLookup_set_self (c : Cache) (k : List Char) (v : CacheEntry) :
    cacheLookup (cacheSet c k v) k = some v := by
  unfold cacheLookup cacheSet
  induction c with
  | nil => simp [List.find?]
  | cons p t _ih =>
    by_cases h : p.1 = k
    · simp [List.filter_cons, h]
    · simp [List.filter_cons, h, List.find?_cons]

theorem cacheLookup_delete_self (c : Cache) (k : List Char) :
    cacheLookup (cacheDelete c k) k = none := by
  unfold cacheLookup cacheDelete
  induction c with
  | nil => simp
  | cons p t _ih =>
    by_cases h : p.1 = k
    · simp [List.filter_cons, h]
    · simp [List.filter_cons, h, List.find?_cons]

theorem cacheDelete_idem (c : Cache) (k : List Char) :
    cacheDelete (cacheDelete c k) k = cacheDelete c k := by
  unfold cacheDelete
  induction c with
  | nil => rfl
  | cons p t _ih =>
    by_cases h : p.1 = k
    · simp [List.filter_cons, h]
    · simp [List.filter_cons, h]

theorem cacheLookup_delete_none (c : Cache) (k k' : List Char)
    (h : cacheLookup c k = none) : cacheLookup (cacheDelete c k') k = none := by
  unfold cacheLookup cacheDelete at *
  induction c with
  | nil => simp
  | cons p t ih =>
    by_cases hp : p.1 = k
    · simp [List.find?_cons, hp] at h
    · have h' : ((t.find? fun p => decide (p.1 = k)).map fun p => p.2) = none := by
        simpa [List.find?_cons, hp] using h
      by_cases hq : p.1 = k'
      · simpa [List.filter_cons, hq] using ih h'
      · simpa [List.filter_cons, hq, List.find?_cons, hp] using ih h'


/-! ## Path lemmas for `getInstallationIdForRepo` -/

theorem resolve_hit (E : Type) (now : Nat) (owner repo : List Char)
    (f : Except E Nat) (cache : Cache) (e0 : CacheEntry)
    (hl : cacheLookup cache owner = some e0) (hexp : now < e0.expiresAt) :
    getInstallationIdForRepo now owner repo f cache
      = { res := Except.ok e0.installationId, cache := cache, lookups := 0 } := by
  unfold getInstallationIdForRepo
  rw [hl]
  simp [hexp]

theorem resolve_miss (E : Type) (now : Nat) (owner repo : List Char)
    (f : Except E Nat) (cache : Cache)
    (hnv : hasValidEntry cache owner now = false) :
    getInstallationIdForRepo now owner repo f cache = fetchAndCache now owner f cache := by
  unfold getInstallationIdForRepo
  unfold hasValidEntry at hnv
  cases hl : cacheLookup cache owner with
  | none => rfl
  | some e0 =>
    rw [hl] at hnv
    have hn := of_decide_eq_false hnv
    simp [hn]

/-! ## Claims C2, C3, C4: the installation cache -/

/-- Claim C2: for every account A, if `resolve(A)` (`getInstallationIdForRepo`
with owner A) succeeds, then the cache afterwards holds an entry for A
carrying the returned installation id; when the call performed a remote
lookup the entry's expiry is resolution time + 24 hours; a single call never
performs more than one remote lookup; and a second call for any repository
under A made while the entry's expiry has not passed returns the same
installation id, leaves the cache unchanged, and performs no remote lookup —
so the two calls within the 24-hour window issue at most one remote lookup
in total. -/
theorem c2_cache_hit_within_window (E : Type) (now now2 : Nat)
    (owner repo1 repo2 : List Char) (cache : Cache) (f1 f2 : Except E Nat) (iid : Nat)
    (hok : (getInstallationIdForRepo now owner repo1 f1 cache).res = Except.ok iid) :
    ∃ e : CacheEntry,
      cacheLookup (getInstallationIdForRepo now owner repo1 f1 cache).cache owner = some e
      ∧ e.installationId = iid
      ∧ ((getInstallationIdForRepo now owner repo1 f1 cache).lookups = 1 →
          e.expiresAt = now + CACHE_TTL)
      ∧ (getInstallationIdForRepo now owner repo1 f1 cache).lookups ≤ 1
      ∧ (now2 < e.expiresAt →
          getInstallationIdForRepo now2 owner repo2 f2
              (getInstallationIdForRepo now owner repo1 f1 cache).cache
            = { res := Except.ok iid,
                cache := (getInstallationIdForRepo now owner repo1 f1 cache).cache,
                lookups := 0 }
          ∧ (getInstallationIdForRepo now owner repo1 f1 cache).lookups
              + (getInstallationIdForRepo now2 owner repo2 f2
                  (getInstallationIdForRepo now owner repo1 f1 cache).cache).lookups ≤ 1) := by
  by_cases hv : hasValidEntry cache owner now = true
  · unfold hasValidEntry at hv
    cases hl : cacheLookup cache owner with
    | none => rw [hl] at hv; cases hv
    | some e0 =>
      rw [hl] at hv
      have hexp : now < e0.expiresAt := of_decide_eq_true hv
      rw [resolve_hit E now owner repo1 f1 cache e0 hl hexp] at hok ⊢
      have hid : e0.installationId = iid := by simpa using hok
      refine ⟨e0, hl, hid, ?_, by simp, ?_⟩
      · intro h; simp at h
      · intro h2
        rw [resolve_hit E now2 owner repo2 f2 cache e0 hl h2, hid]
        exact ⟨rfl, by simp⟩
  · have hnv : hasValidEntry cache owner now = false := by
      cases h : hasValidEntry cache owner now
      · rfl
      · exact absurd h hv
    rw [resolve_miss E now owner repo1 f1 cache hnv] at hok ⊢
    cases f1 with
    | error err => simp [fetchAndCache] at hok
    | ok v =>
      have hvv : v = iid := by simpa [fetchAndCache] using hok
      subst hvv
      have hset : cacheLookup (fetchAndCache (E := E) now owner (Except.ok v) cache).cache owner
          = some { installationId := v, expiresAt := now + CACHE_TTL } := by
        simpa [fetchAndCache] using
          cacheLookup_set_self cache owner { installationId := v, expiresAt := now + CACHE_TTL }
      refine ⟨{ installationId := v, expiresAt := now + CACHE_TTL }, hset, rfl,
        fun _ => rfl, by simp [fetchAndCache], ?_⟩
      intro h2
      rw [resolve_hit E now2 owner repo2 f2 _ _ hset h2]
      exact ⟨rfl, by simp [fetchAndCache]⟩

def emptyCache : Cache := []

def wOwner : List Char := "acme".toList
def wRepo1 : List Char := "app1".toList
def wRepo2 : List Char := "app2".toList
def wOtherOwner : List Char := "octo".toList
def cache0 : Cache := [(wOtherOwner, { installationId := 9, expiresAt := 50 })]
def wFull1 : List Char := "acme/app1".toList
def wFull2 : List Char := "octo/lib".toList

theorem c2_witness :
    ∃ e : CacheEntry,
      cacheLookup (getInstallationIdForRepo (E := Unit) 0 wOwner wRepo1 (Except.ok 42) emptyCache).cache wOwner = some e
      ∧ e.installationId = 42
      ∧ ((getInstallationIdForRepo (E := Unit) 0 wOwner wRepo1 (Except.ok 42) emptyCache).lookups = 1 →
          e.expiresAt = 0 + CACHE_TTL)
      ∧ (getInstallationIdForRepo (E := Unit) 0 wOwner wRepo1 (Except.ok 42) emptyCache).lookups ≤ 1
      ∧ (5 < e.expiresAt →
          getInstallationIdForRepo (E := Unit) 5 wOwner wRepo2 (Except.error ())
              (getInstallationIdForRepo (E := Unit) 0 wOwner wRepo1 (Except.ok 42) emptyCache).cache
            = { res := Except.ok 42,
                cache := (getInstallationIdForRepo (E := Unit) 0 wOwner wRepo1 (Except.ok 42) emptyCache).cache,
                lookups := 0 }
          ∧ (getInstallationIdForRepo (E := Unit) 0 wOwner wRepo1 (Except.ok 42) emptyCache).lookups
              + (getInstallationIdForRepo (E := Unit) 5 wOwner wRepo2 (Except.error ())
                  (getInstallationIdForRepo (E := Unit) 0 wOwner wRepo1 (Except.ok 42) emptyCache).cache).lookups ≤ 1) :=
  c2_cache_hit_within_window Unit 0 5 wOwner wRepo1 wRepo2 emptyCache
    (Except.ok 42) (Except.error ()) 42 rfl

/-- Claim C3: when the remote installation lookup fails (including the
404 "not installed" case), and no valid cache entry short-circuits the call,
`getInstallationIdForRepo` propagates the thrown error unchanged to the
caller and leaves the installation cache exactly as it was: no negative
result is stored and pre-existing entries are untouched. -/
theorem c3_lookup_failure_no_caching (E : Type) (now : Nat) (owner repo : List Char)
    (cache : Cache) (err : E)
    (hnv : hasValidEntry cache owner now = false) :
    getInstallationIdForRepo now owner repo (Except.error err) cache
      = { res := Except.error err, cache := cache, lookups := 1 } := by
  rw [resolve_miss E now owner repo (Except.error err) cache hnv]
  rfl

theorem c3_witness :
    getInstallationIdForRepo (E := Nat) 0 wOwner wRepo1 (Except.error 404) cache0
      = { res := Except.error 404, cache := cache0, lookups := 1 } :=
  c3_lookup_failure_no_caching Nat 0 wOwner wRepo1 cache0 404 rfl

/-! ## Claim C4: invalidation -/

theorem foldl_clear_preserves_none (repos : List (List Char)) (cache : Cache) (k : List Char)
    (h : cacheLookup cache k = none) :
    cacheLookup (repos.foldl (fun c full => clearInstallationCache (ownerOf full) c) cache) k
      = none := by
  induction repos generalizing cache with
  | nil => exact h
  | cons hd tl ih =>
    rw [List.foldl_cons]
    exact ih _ (cacheLookup_delete_none cache k (ownerOf hd) h)

theorem handleInstallationDeleted_clears : ∀ (repos : List (List Char)) (cache : Cache)
    (full : List Char), full ∈ repos →
    cacheLookup (handleInstallationDeleted repos cache) (ownerOf full) = none := by
  intro repos
  induction repos with
  | nil => intro cache full hmem; cases hmem
  | cons hd tl ih =>
    intro cache full hmem
    unfold handleInstallationDeleted at *
    rw [List.foldl_cons]
    rcases List.mem_cons.mp hmem with h | h
    · subst h
      exact foldl_clear_preserves_none tl _ _ (cacheLookup_delete_self cache (ownerOf full))
    · exact ih _ _ h

/-- Claim C4: after `invalidate(A)` (`clearInstallationCache`) the cache
holds no entry for A; invalidation is idempotent; the next resolve for A
performs a fresh remote lookup (exactly one) rather than serving a cached
value; and an `installation` event with action `deleted` removes the cache
entry of every account named in its repository list. -/
theorem c4_invalidation (cache : Cache) (account : List Char) :
    cacheLookup (clearInstallationCache account cache) account = none
    ∧ clearInstallationCache account (clearInstallationCache account cache)
        = clearInstallationCache account cache
    ∧ (∀ (E : Type) (now : Nat) (repo : List Char) (f : Except E Nat),
        (getInstallationIdForRepo now account repo f (clearInstallationCache account cache)).lookups = 1)
    ∧ (∀ (repos : List (List Char)) (full : List Char), full ∈ repos →
        cacheLookup (handleInstallationDeleted repos cache) (ownerOf full) = none) := by
  refine ⟨cacheLookup_delete_self cache account, cacheDelete_idem cache account, ?_, ?_⟩
  · intro E now repo f
    have hnv : hasValidEntry (clearInstallationCache account cache) account now = false := by
      unfold hasValidEntry clearInstallationCache
      rw [cacheLookup_delete_self]
    rw [resolve_miss E now account repo f _ hnv]
    cases f <;> rfl
  · intro repos full hmem
    exact handleInstallationDeleted_clears repos cache full hmem

theorem c4_witness :
    cacheLookup (clearInstallationCache wOtherOwner cache0) wOtherOwner = none
    ∧ cacheLookup (handleInstallationDeleted [wFull1, wFull2] cache0) (ownerOf wFull2) = none := by
  refine ⟨(c4_invalidation cache0 wOtherOwner).1, ?_⟩
  exact (c4_invalidation cache0 wOtherOwner).2.2.2 [wFull1, wFull2] wFull2 (by simp)

/-! ## Claim C9: the credential signer -/

/-- Claim C9: with both the app id and the private key configured, the
signed assertion produced by `generateJWT` expires exactly 600 seconds after
its issue time; when either is absent (the empty-string default of a missing
environment variable), signing fails with the configuration error instead of
producing an assertion. -/
theorem c9_jwt_expiry (appId privateKey : List Char) (nowMs : Int) :
    (appId ≠ [] → privateKey ≠ [] →
      ∃ t : SignedJwt, generateJWT appId privateKey nowMs = Except.ok t
        ∧ t.payload.exp = t.payload.iat + 600
        ∧ t.payload.iat = Int.fdiv nowMs 1000
        ∧ t.payload.iss = appId)
    ∧ ((appId = [] ∨ privateKey = []) →
      generateJWT appId privateKey nowMs = Except.error notConfiguredMsg) := by
  constructor
  · intro h1 h2
    have hcond : ¬ (appId = [] ∨ privateKey = []) := by
      intro h
      rcases h with h | h
      · exact h1 h
      · exact h2 h
    exact ⟨{ payload := { iat := Int.fdiv nowMs 1000, exp := Int.fdiv nowMs 1000 + 600,
                          iss := appId },
             key := privateKey, algorithm := rs256Str },
      by simp only [generateJWT, if_neg hcond], rfl, rfl, rfl⟩
  · intro h
    simp only [generateJWT, if_pos h]

def wAppId : List Char := "123456".toList
def wKey : List Char := "pem".toList

theorem c9_witness :
    (∃ t : SignedJwt, generateJWT wAppId wKey 5000 = Except.ok t
      ∧ t.payload.exp = t.payload.iat + 600
      ∧ t.payload.iat = Int.fdiv 5000 1000
      ∧ t.payload.iss = wAppId)
    ∧ generateJWT [] wKey 5000 = Except.error notConfiguredMsg := by
  constructor
  · exact (c9_jwt_expiry wAppId wKey 5000).1 (by decide) (by decide)
  · exact (c9_jwt_expiry [] wKey 5000).2 (Or.inl rfl)

/-! ## Claim C10: webhook signature verification -/

/-- Claim C10 (implicit): the webhook signature check accepts the payload
(returns true, so processing proceeds) whenever the signature header is
absent (or empty) or no webhook secret is configured; the HMAC comparison is
performed only when both are present. -/
theorem c10_signature_skip (hmacHex : List Char → List Char → List Char)
    (secret body : List Char) (signature : Option (List Char)) :
    ((signature = none ∨ signature = some [] ∨ secret = []) →
      verifyWebhookSignature hmacHex secret body signature = Except.ok true)
    ∧ (∀ s : List Char, signature = some s → s ≠ [] → secret ≠ [] →
      verifyWebhookSignature hmacHex secret body signature
        = timingSafeEqual s (sha256Pre ++ hmacHex secret body)) := by
  constructor
  · intro h
    rcases h with rfl | rfl | hsec
    · rfl
    · simp [verifyWebhookSignature]
    · cases signature with
      | none => rfl
      | some s => simp [verifyWebhookSignature, hsec]
  · intro s hs hne hsec
    subst hs
    have hcond : ¬ (s = [] ∨ secret = []) := by
      intro h
      rcases h with h | h
      · exact hne h
      · exact hsec h
    simp only [verifyWebhookSignature, if_neg hcond]

def wHmac : List Char → List Char → List Char := fun _ _ => "0abc".toList
def wBody : List Char := "payload".toList
def wSecret : List Char := "s3cr3t".toList

theorem c10_witness :
    verifyWebhookSignature wHmac wSecret wBody none = Except.ok true
    ∧ verifyWebhookSignature wHmac [] wBody (some ("sig".toList)) = Except.ok true := by
  constructor
  · exact (c10_signature_skip wHmac wSecret wBody none).1 (Or.inl rfl)
  · exact (c10_signature_skip wHmac [] wBody (some ("sig".toList))).1 (Or.inr (Or.inr rfl))

/-! ## Claim C1: orchestration failure semantics -/

/-- Discriminator for `Except`. -/
def exOk {E A : Type} : Except E A → Bool
  | Except.ok _ => true
  | Except.error _ => false

/-- Claim C1: for every orchestration run, the terminal record update does
not depend on the outcome of posting the summary comment (step 6 failures
are only logged, leaving the `completed` status and stored result
unchanged); any unhandled exception during steps 1-4 transitions the record
to status `failed` with the placeholder zero-score result; and when the
pipeline succeeds the record is `completed` with the generated review
stored. -/
theorem c1_failure_and_post_semantics (env : OrchEnv) (x : Except Unit Unit) :
    (processAICodeReview { env with postResp := x }).1 = (processAICodeReview env).1
    ∧ (step14Threw env = true → (processAICodeReview env).1 = failedUpdate)
    ∧ (∀ (files : List GhFile) (r : AIReview),
        exOk (credentialToken env) = true →
        env.filesResp = Except.ok files →
        (codeFilesOf files).isEmpty = false →
        (validFilesOf env files).isEmpty = false →
        env.generate (validFilesOf env files) = Except.ok r →
        (processAICodeReview env).1
          = { status := completedStr, review := some (StoredPayload.ai r) }) := by
  have hcp : credentialToken { env with postResp := x } = credentialToken env := rfl
  have hvp : validFilesOf { env with postResp := x } = validFilesOf env := rfl
  refine ⟨?_, ?_, ?_⟩
  · unfold processAICodeReview
    rw [hcp, hvp]
    cases hc : credentialToken env with
    | error e => simp
    | ok tok =>
      cases hf : env.filesResp with
      | error e => simp
      | ok files =>
        by_cases he : (codeFilesOf files).isEmpty
        · simp [he]
        · by_cases hv : (validFilesOf env files).isEmpty
          · simp [he, hv]
          · cases hg : env.generate (validFilesOf env files) with
            | error e => simp [he, hv, hg]
            | ok r => simp [he, hv, hg]
  · intro h
    unfold step14Threw at h
    unfold processAICodeReview
    cases hc : credentialToken env with
    | error e => simp only [hc] at h; cases h
    | ok tok =>
      simp only [hc] at h ⊢
      cases hf : env.filesResp with
      | error e => simp only [hf]
      | ok files =>
        simp only [hf] at h ⊢
        by_cases he : (codeFilesOf files).isEmpty
        · simp only [he, if_true] at h; cases h
        · simp only [he, Bool.false_eq_true, if_false] at h ⊢
          by_cases hv : (validFilesOf env files).isEmpty
          · simp only [hv, if_true] at h; cases h
          · simp only [hv, Bool.false_eq_true, if_false] at h ⊢
            cases hg : env.generate (validFilesOf env files) with
            | error e => simp [hg]
            | ok r => simp only [hg] at h; cases h
  · intro files r hc hf he hv hg
    unfold processAICodeReview
    cases hcc : credentialToken env with
    | error e => rw [hcc] at hc; cases hc
    | ok tok => simp [hcc, hf, he, hv, hg]

def wFile : GhFile :=
  { filename := "a.js".toList, patch := [], additions := 1, deletions := 0 }

def wContent : FileContent :=
  { filename := "a.js".toList, content := "let x = 1".toList, patch := [],
    additions := 1, deletions := 0 }

def wReview : AIReview :=
  { summary := Json.str ("looks good".toList), score := some 90,
    suggestions := [], issues := [], positiveAspects := Json.arr [] }

/-- A run whose files listing throws (step 1). -/
def envFail : OrchEnv :=
  { installationId := none
    directExchange := Except.error ()
    resolverToken := Except.ok ("tok".toList)
    filesResp := Except.error ()
    contentResp := fun _ => none
    generate := fun _ => Except.error ()
    postResp := Except.ok () }

/-- A run that succeeds through step 5 but whose comment post fails. -/
def envOk : OrchEnv :=
  { installationId := some 77
    directExchange := Except.ok ("tok".toList)
    resolverToken := Except.error ()
    filesResp := Except.ok [wFile]
    contentResp := fun _ => some wContent
    generate := fun _ => Except.ok wReview
    postResp := Except.error () }

theorem c1_witness :
    (processAICodeReview envFail).1 = failedUpdate
    ∧ (processAICodeReview envOk).1
        = { status := completedStr, review := some (StoredPayload.ai wReview) }
    ∧ (processAICodeReview { envOk with postResp := Except.ok () }).1
        = (processAICodeReview envOk).1 := by
  refine ⟨?_, ?_, ?_⟩
  · exact (c1_failure_and_post_semantics envFail (Except.ok ())).2.1 rfl
  · exact (c1_failure_and_post_semantics envOk (Except.ok ())).2.2 [wFile] wReview
      rfl rfl rfl rfl rfl
  · exact (c1_failure_and_post_semantics envOk (Except.ok ())).1

/-! ## Claim C6: total parse failure yields the fallback -/

/-- Claim C6: `parseAIResponse` is total (its Lean embedding returns an
`AIReview` for every input string, mirroring the source's try/catch
structure, which catches every exception it can raise), and on total parse
failure — both the direct attempt on the cleaned string and the attempt on
the brace-extracted substring fail — it returns exactly the fallback result:
score 0, the explanatory summary, and empty suggestion/issue/positive-aspect
arrays. -/
theorem c6_parse_failure_fallback (l : List Char)
    (h1 : attemptParse (cleanResponse l) = none)
    (h2 : (extractBraces (cleanResponse l)).bind attemptParse = none) :
    parseAIResponse l = fallbackReview := by
  unfold parseAIResponse parseCore
  rw [h1]
  cases he : extractBraces (cleanResponse l) with
  | none => rfl
  | some sub =>
    rw [he] at h2
    simp only [Option.some_bind] at h2
    simp [h2]

def c6Input : List Char := "the model returned no structured output".toList

theorem c6_witness : parseAIResponse c6Input = fallbackReview :=
  c6_parse_failure_fallback c6Input rfl rfl

/-! ## Claim C5: score clamping -/

/-- The claim's property: the score of a Structured Result is a number in
[0, 100] (`none` is NaN, which is not in the interval). -/
def scoreInRange (r : AIReview) : Prop :=
  ∃ n : Int, r.score = some n ∧ 0 ≤ n ∧ n ≤ 100

/-- A payload whose `score` field is a truthy string that does not coerce to
a number: `{"score": "abc"}`. -/
def c5CexInput : List Char := "\x7b\"score\": \"abc\"\x7d".toList

/-- Counterexample to claim C5 as stated: on `{"score": "abc"}` the source
computes `Math.max(0, Math.min(100, "abc"))`, i.e. NaN — the returned score
is not in [0, 100]. -/
theorem c5_counterexample : ¬ scoreInRange (parseAIResponse c5CexInput) := by
  intro hc
  obtain ⟨n, hn, _h0, _h1⟩ := hc
  have hnone : (parseAIResponse c5CexInput).score = none := rfl
  rw [hnone] at hn
  exact Option.noConfusion hn

theorem scoreOf_in_range (v : Json) :
    scoreOf v = none ∨ ∃ n : Int, scoreOf v = some n ∧ 0 ≤ n ∧ n ≤ 100 := by
  unfold scoreOf
  cases h : jsToNumber (orTruthy (fieldGet v scoreKey) (Json.num 0)) with
  | none => left; rfl
  | some m =>
    right
    refine ⟨max 0 (min 100 m), rfl, le_max_left 0 _, ?_⟩
    exact max_le (by norm_num) (min_le_left 100 m)

theorem buildReviewCore_score (v : Json) (r : AIReview)
    (h : buildReviewCore v = some r) : r.score = scoreOf v := by
  unfold buildReviewCore at h
  cases h1 : arrField v suggestionsKey with
  | none => simp only [h1] at h; exact Option.noConfusion h
  | some sl =>
    simp only [h1] at h
    cases h2 : mapItems (buildItem suggestionPre improvementStr suggestionTitleStr suggestionDescStr lowStr) 0 sl with
    | none => simp only [h2] at h; exact Option.noConfusion h
    | some sugg =>
      simp only [h2] at h
      cases h3 : arrField v issuesKey with
      | none => simp only [h3] at h; exact Option.noConfusion h
      | some il =>
        simp only [h3] at h
        cases h4 : mapItems (buildItem issuePre bugStr issueTitleStr issueDescStr mediumStr) 0 il with
        | none => simp only [h4] at h; exact Option.noConfusion h
        | some iss =>
          simp only [h4, Option.some.injEq] at h
          rw [← h]

theorem buildReview_score (v : Json) (r : AIReview)
    (h : buildReview v = some r) : r.score = scoreOf v := by
  cases v with
  | null => exact Option.noConfusion h
  | bool b => exact buildReviewCore_score _ _ h
  | num n => exact buildReviewCore_score _ _ h
  | str s => exact buildReviewCore_score _ _ h
  | arr l => exact buildReviewCore_score _ _ h
  | obj fs => exact buildReviewCore_score _ _ h

theorem attemptParse_score (s : List Char) (r : AIReview) (h : attemptParse s = some r) :
    r.score = none ∨ ∃ n : Int, r.score = some n ∧ 0 ≤ n ∧ n ≤ 100 := by
  unfold attemptParse at h
  cases hj : jsonParse s with
  | none => rw [hj] at h; exact Option.noConfusion h
  | some v =>
    rw [hj] at h
    simp only [Option.some_bind] at h
    rw [buildReview_score v r h]
    rcases scoreOf_in_range v with h1 | h1
    · exact Or.inl h1
    · exact Or.inr h1

/-- Claim C5, amended: for every input string the score of the Structured
Result is in [0, 100] — a parsed numeric score above 100 is clamped to 100,
below 0 is clamped to 0, and a missing score defaults to 0 — except that a
truthy score field that does not coerce to a number (e.g. the string
`"abc"`) produces NaN instead.  The concrete conjuncts record the clamping
behaviour of the claim's examples. -/
theorem c5_score_clamped_or_nan (l : List Char) :
    (scoreInRange (parseAIResponse l) ∨ (parseAIResponse l).score = none)
    ∧ (parseAIResponse ("\x7b\"score\": 150\x7d".toList)).score = some 100
    ∧ (parseAIResponse ("\x7b\"score\": -5\x7d".toList)).score = some 0
    ∧ (parseAIResponse ("\x7b\"summary\": \"no score\"\x7d".toList)).score = some 0 := by
  refine ⟨?_, rfl, rfl, rfl⟩
  unfold parseAIResponse parseCore
  cases h1 : attemptParse (cleanResponse l) with
  | some r =>
    simp only [h1]
    rcases attemptParse_score _ _ h1 with h | hr
    · exact Or.inr h
    · exact Or.inl hr
  | none =>
    simp only [h1]
    cases h2 : extractBraces (cleanResponse l) with
    | none =>
      simp only [h2]
      exact Or.inl ⟨0, rfl, by norm_num, by norm_num⟩
    | some sub =>
      simp only [h2]
      cases h3 : attemptParse sub with
      | none =>
        simp only [h3]
        exact Or.inl ⟨0, rfl, by norm_num, by norm_num⟩
      | some r =>
        simp only [h3]
        rcases attemptParse_score _ _ h3 with h | hr
        · exact Or.inr h
        · exact Or.inl hr

/-! ## Claim C8: idempotence of event re-delivery -/

theorem findById_of_mem_nodup (db : List ReviewRec) (r : ReviewRec)
    (hmem : r ∈ db) (hnd : (db.map (fun x => x.rid)).Nodup) :
    findById db r.rid = some r := by
  induction db with
  | nil => cases hmem
  | cons h t ih =>
    rw [List.map_cons, List.nodup_cons] at hnd
    rcases List.mem_cons.mp hmem with rfl | hm
    · unfold findById
      simp [List.find?_cons]
    · have hne : ¬ h.rid = r.rid := by
        intro he
        exact hnd.1 (he ▸ List.mem_map_of_mem (fun x => x.rid) hm)
      unfold findById at *
      simp only [List.find?_cons, hne, decide_eq_true_eq, if_false]
      simpa [hne] using ih hm hnd.2

theorem findById_mapIf (db : List ReviewRec) (rid : Nat) (g : ReviewRec → ReviewRec)
    (hg : ∀ x, (g x).rid = x.rid)
    (r : ReviewRec) (hfind : findById db rid = some r) :
    findById (db.map (fun x => if x.rid = rid then g x else x)) rid = some (g r) := by
  induction db with
  | nil => exact Option.noConfusion hfind
  | cons h t ih =>
    unfold findById at *
    by_cases hh : h.rid = rid
    · have hr : h = r := by
        simpa [List.find?_cons, hh] using hfind
      subst hr
      simp [List.find?_cons, hh, hg h]
    · have hfind' : t.find? (fun x => decide (x.rid = rid)) = some r := by
        simpa [List.find?_cons, hh] using hfind
      simpa [List.find?_cons, hh] using ih hfind'

/-- Claim C8: re-delivering an `opened` event for a change-request whose
(repository, pull-request) pair already has a record creates no second
record and leaves the database — including the existing record — unchanged,
and triggers no pipeline run; a `synchronize` or `reopened` event for an
existing record resets exactly that record's status to `pending` (keeping
its stored result for the moment) and re-runs the pipeline for it, whose
terminal `updateReviewStatus` write then overwrites the prior status and
result. -/
theorem c8_event_idempotence (db : List ReviewRec) (enabled : Bool)
    (repoId prId newId : Nat) (repoName : List Char) (r : ReviewRec)
    (hfind : findReview db repoId prId = some r)
    (hnd : (db.map (fun x => x.rid)).Nodup)
    (hen : enabled = true) :
    handlePullRequest enabled openedStr repoId prId newId repoName db = (db, none)
    ∧ (∀ act : List Char, (act = synchronizeStr ∨ act = reopenedStr) →
        handlePullRequest enabled act repoId prId newId repoName db
          = (setPending db r.rid, some r.rid)
        ∧ findById (setPending db r.rid) r.rid = some { r with status := pendingStr }
        ∧ (∀ (st : List Char) (payload : Option StoredPayload),
            findById (applyReviewUpdate (setPending db r.rid) r.rid st payload) r.rid
              = some { r with status := st, review := payload })) := by
  subst hen
  have hfid : findById db r.rid = some r :=
    findById_of_mem_nodup db r (List.mem_of_find?_eq_some hfind) hnd
  have hpend : findById (setPending db r.rid) r.rid = some { r with status := pendingStr } :=
    findById_mapIf db r.rid (fun x => { x with status := pendingStr }) (fun _ => rfl) r hfid
  constructor
  · unfold handlePullRequest
    rw [if_neg (by simp), if_neg (by simp)]
    simp only [hfind]
    simp
  · intro act hact
    have hne : ¬ act = openedStr := by
      rcases hact with rfl | rfl
      · intro h
        exact absurd (congrArg (fun l => l) h) (by decide)
      · intro h
        exact absurd (congrArg (fun l => l) h) (by decide)
    refine ⟨?_, hpend, ?_⟩
    · unfold handlePullRequest
      have hor : act = openedStr ∨ act = synchronizeStr ∨ act = reopenedStr := by
        rcases hact with rfl | rfl
        · exact Or.inr (Or.inl rfl)
        · exact Or.inr (Or.inr rfl)
      rw [if_neg (by simp [hor]), if_neg (by simp)]
      simp only [hfind]
      simp [hne]
    · intro st payload
      have := findById_mapIf (setPending db r.rid) r.rid
        (fun x => { x with status := st, review := payload }) (fun _ => rfl)
        { r with status := pendingStr } hpend
      simpa using this

def rec0 : ReviewRec :=
  { rid := 1, repositoryId := 10, pullRequestId := 20,
    repositoryName := "acme/app1".toList, status := completedStr,
    review := some (StoredPayload.lit { summary := "old".toList, score := 80,
                                        suggestions := [], issues := [] }) }

def db0 : List ReviewRec := [rec0]

theorem c8_witness :
    handlePullRequest true openedStr 10 20 2 ("acme/app1".toList) db0 = (db0, none)
    ∧ handlePullRequest true synchronizeStr 10 20 2 ("acme/app1".toList) db0
        = (setPending db0 rec0.rid, some rec0.rid)
    ∧ findById (applyReviewUpdate (setPending db0 rec0.rid) rec0.rid failedStr (some (StoredPayload.ai wReview)))
          rec0.rid
        = some { rec0 with status := failedStr, review := some (StoredPayload.ai wReview) } := by
  have h := c8_event_idempotence db0 true 10 20 2 ("acme/app1".toList) rec0 rfl (by decide) rfl
  refine ⟨h.1, ?_, ?_⟩
  · exact (h.2 synchronizeStr (Or.inl rfl)).1
  · exact (h.2 synchronizeStr (Or.inl rfl)).2.2 failedStr (some (StoredPayload.ai wReview))

/-! ## Claim C7: wrapping invariance of the Response Parser

The lemmas below analyse the cleaning pipeline on a payload `P` wrapped in
code-fence markers and/or a reasoning (`<think>`) block. -/

theorem isPrefixOf_append_self (l t : List Char) : l.isPrefixOf (l ++ t) = true := by
  induction l with
  | nil => simp [List.isPrefixOf]
  | cons c cs ih => simp [List.isPrefixOf, ih]

theorem isPrefixOf_append_cons (pat : List Char) (c : Char) (hc : c ∉ pat) :
    ∀ P Q : List Char, pat.isPrefixOf (P ++ c :: Q) = pat.isPrefixOf P := by
  induction pat with
  | nil => intro P Q; simp [List.isPrefixOf]
  | cons p pt ih =>
    intro P Q
    cases P with
    | nil =>
      have hpc : ¬ p = c := fun he => hc (he ▸ List.mem_cons_self p pt)
      simp [List.isPrefixOf, hpc]
    | cons a P' =>
      simp only [List.cons_append, List.isPrefixOf, List.append_eq]
      rw [ih (fun hm => hc (List.mem_cons_of_mem p hm)) P' Q]

theorem occursB_cons (pat : List Char) (c : Char) (cs : List Char) :
    occursB pat (c :: cs) = (pat.isPrefixOf (c :: cs) || occursB pat cs) := rfl

theorem occursB_append_cons (pat P Q : List Char) (c : Char) (hc : c ∉ pat) :
    occursB pat (P ++ c :: Q) = (occursB pat P || occursB pat (c :: Q)) := by
  induction P with
  | nil =>
    cases pat with
    | nil => simp [occursB, List.isPrefixOf]
    | cons p pt => simp [occursB, List.isPrefixOf]
  | cons a P' ih =>
    have e1 : occursB pat ((a :: P') ++ c :: Q)
        = (pat.isPrefixOf ((a :: P') ++ c :: Q) || occursB pat (P' ++ c :: Q)) := rfl
    have e2 : occursB pat (a :: P') = (pat.isPrefixOf (a :: P') || occursB pat P') := rfl
    rw [e1, e2, isPrefixOf_append_cons pat c hc (a :: P') Q, ih, Bool.or_assoc]

theorem occursB_mono (pat1 pat2 l : List Char) (hp : pat1.isPrefixOf pat2 = true)
    (h : occursB pat1 l = false) : occursB pat2 l = false := by
  induction l with
  | nil =>
    cases pat2 with
    | nil =>
      have h1 : pat1 = [] := by
        cases pat1 with
        | nil => rfl
        | cons q qt => simp [List.isPrefixOf] at hp
      subst h1
      simp [occursB, List.isPrefixOf] at h
    | cons q qt => simp [occursB, List.isPrefixOf]
  | cons c cs ih =>
    rw [occursB_cons] at h ⊢
    rw [Bool.or_eq_false_iff] at h ⊢
    refine ⟨?_, ih h.2⟩
    cases hq : pat2.isPrefixOf (c :: cs) with
    | false => rfl
    | true =>
      have t1 := List.isPrefixOf_iff_prefix.mp hp
      have t2 := List.isPrefixOf_iff_prefix.mp hq
      have t3 : pat1.isPrefixOf (c :: cs) = true :=
        List.isPrefixOf_iff_prefix.mpr (t1.trans t2)
      rw [h.1] at t3
      exact Bool.noConfusion t3

theorem stripThinkF_id (f : Nat) : ∀ l : List Char, occursB thinkOpen l = false →
    stripThinkF f l = l := by
  induction f with
  | zero => intro l _h; rfl
  | succ f ih =>
    intro l h
    cases l with
    | nil => rfl
    | cons c cs =>
      rw [occursB_cons, Bool.or_eq_false_iff] at h
      simp only [stripThinkF, h.1, Bool.false_eq_true, if_false]
      rw [ih cs h.2]

theorem stripJsonFencesF_id (f : Nat) : ∀ l : List Char, occursB jsonFencePat l = false →
    stripJsonFencesF f l = l := by
  induction f with
  | zero => intro l _h; rfl
  | succ f ih =>
    intro l h
    cases l with
    | nil => rfl
    | cons c cs =>
      rw [occursB_cons, Bool.or_eq_false_iff] at h
      simp only [stripJsonFencesF, h.1, Bool.false_eq_true, if_false]
      rw [ih cs h.2]

theorem stripTrailingFence_id : ∀ l : List Char, occursB tickPat l = false →
    stripTrailingFence l = l := by
  intro l
  induction l with
  | nil => intro _h; rfl
  | cons c cs ih =>
    intro h
    rw [occursB_cons, Bool.or_eq_false_iff] at h
    simp only [stripTrailingFence, h.1, Bool.false_and, Bool.false_eq_true, if_false]
    rw [ih h.2]

theorem findClose_cons (c : Char) (cs : List Char) :
    findClose (c :: cs)
      = if thinkClose.isPrefixOf (c :: cs) then some ((c :: cs).drop 8) else findClose cs := rfl

theorem findClose_append (T : List Char) : ∀ R : List Char, '<' ∉ R →
    findClose (R ++ (thinkClose ++ T)) = some T := by
  intro R
  induction R with
  | nil =>
    intro _h
    have hpre : thinkClose.isPrefixOf (thinkClose ++ T) = true := isPrefixOf_append_self _ _
    have e : thinkClose ++ T = '<' :: (['/', 't', 'h', 'i', 'n', 'k', '>'] ++ T) := rfl
    show findClose (thinkClose ++ T) = some T
    rw [e] at hpre ⊢
    rw [findClose_cons]
    simp only [hpre, if_true]
    rfl
  | cons c R' ih =>
    intro h
    have hcne : ¬ ('<' : Char) = c := by
      intro he
      exact h (by rw [← he]; exact List.mem_cons_self '<' R')
    have hbeq : (('<' : Char) == c) = false := beq_eq_false_iff_ne.mpr hcne
    have hpre : thinkClose.isPrefixOf (c :: (R' ++ (thinkClose ++ T))) = false := by
      simp [thinkClose, List.isPrefixOf, hbeq]
    rw [List.cons_append, findClose_cons]
    simp only [hpre, Bool.false_eq_true, if_false]
    exact ih (fun hm => h (List.mem_cons_of_mem c hm))

theorem stripThinkF_cons (f : Nat) (c : Char) (cs : List Char) :
    stripThinkF (f + 1) (c :: cs)
      = if thinkOpen.isPrefixOf (c :: cs) then
          (match findClose ((c :: cs).drop 7) with
           | some rest => stripThinkF f rest
           | none => c :: cs)
        else c :: stripThinkF f cs := rfl

theorem stripThinkF_front (f : Nat) (X : List Char) :
    stripThinkF (f + 1) (thinkOpen ++ X)
      = (match findClose X with
         | some rest => stripThinkF f rest
         | none => thinkOpen ++ X) := by
  have hpre : thinkOpen.isPrefixOf (thinkOpen ++ X) = true := isPrefixOf_append_self _ _
  have e : thinkOpen ++ X = '<' :: (['t', 'h', 'i', 'n', 'k', '>'] ++ X) := rfl
  rw [e] at hpre ⊢
  rw [stripThinkF_cons]
  simp only [hpre, if_true]
  have hd : ('<' :: (['t', 'h', 'i', 'n', 'k', '>'] ++ X)).drop 7 = X := rfl
  rw [hd]

theorem stripThinkF_cons_neg (f : Nat) (c : Char) (cs : List Char)
    (h : thinkOpen.isPrefixOf (c :: cs) = false) :
    stripThinkF (f + 1) (c :: cs) = c :: stripThinkF f cs := by
  rw [stripThinkF_cons]
  simp [h]

theorem stripJsonFencesF_cons (f : Nat) (c : Char) (cs : List Char) :
    stripJsonFencesF (f + 1) (c :: cs)
      = if jsonFencePat.isPrefixOf (c :: cs) then
          stripJsonFencesF f (((c :: cs).drop 7).dropWhile isWs)
        else c :: stripJsonFencesF f cs := rfl

theorem stripJsonFencesF_front (f : Nat) (X : List Char) :
    stripJsonFencesF (f + 1) (jsonFencePat ++ X)
      = stripJsonFencesF f (X.dropWhile isWs) := by
  have hpre : jsonFencePat.isPrefixOf (jsonFencePat ++ X) = true := isPrefixOf_append_self _ _
  have e : jsonFencePat ++ X = tick :: ([tick, tick, 'j', 's', 'o', 'n'] ++ X) := rfl
  rw [e] at hpre ⊢
  rw [stripJsonFencesF_cons]
  simp only [hpre, if_true]
  have hd : (tick :: ([tick, tick, 'j', 's', 'o', 'n'] ++ X)).drop 7 = X := rfl
  rw [hd]

theorem stripJsonFencesF_cons_neg (f : Nat) (c : Char) (cs : List Char)
    (h : jsonFencePat.isPrefixOf (c :: cs) = false) :
    stripJsonFencesF (f + 1) (c :: cs) = c :: stripJsonFencesF f cs := by
  rw [stripJsonFencesF_cons]
  simp [h]

theorem stripTrailingFence_cons (c : Char) (cs : List Char) :
    stripTrailingFence (c :: cs)
      = if tickPat.isPrefixOf (c :: cs) && allWs ((c :: cs).drop 3) then []
        else c :: stripTrailingFence cs := rfl

theorem stripTrailingFence_walk : ∀ P : List Char, occursB tickPat P = false →
    stripTrailingFence (P ++ '\n' :: tickPat) = P ++ ['\n'] := by
  intro P
  induction P with
  | nil =>
    intro _h
    show stripTrailingFence ('\n' :: tickPat) = ['\n']
    decide
  | cons a P' ih =>
    intro h
    rw [occursB_cons, Bool.or_eq_false_iff] at h
    have hnl : ('\n' : Char) ∉ tickPat := by decide
    have hpre : tickPat.isPrefixOf (a :: (P' ++ '\n' :: tickPat)) = false := by
      have hap := isPrefixOf_append_cons tickPat '\n' hnl (a :: P') tickPat
      rw [List.cons_append] at hap
      rw [hap, h.1]
    rw [List.cons_append, stripTrailingFence_cons]
    simp only [hpre, Bool.false_and, Bool.false_eq_true, if_false]
    rw [ih h.2, List.cons_append]

theorem head_not_ws (p : Char) (P0 : List Char)
    (h : (p :: P0).dropWhile isWs = p :: P0) : isWs p = false := by
  cases hw : isWs p with
  | false => rfl
  | true =>
    rw [List.dropWhile_cons] at h
    simp only [hw, if_true] at h
    have hlen := (List.dropWhile_suffix (l := P0) isWs).length_le
    rw [h] at hlen
    simp at hlen

theorem dropWhile_cons_false (a : Char) (l : List Char) (h : isWs a = false) :
    (a :: l).dropWhile isWs = a :: l := by
  rw [List.dropWhile_cons]
  simp [h]

theorem trim_eq_self (l : List Char) (h1 : l.dropWhile isWs = l)
    (h2 : l.reverse.dropWhile isWs = l.reverse) : trimList l = l := by
  unfold trimList
  rw [h1, h2, List.reverse_reverse]

theorem trim_append_nl (P : List Char) (hne : P ≠ [])
    (h1 : P.dropWhile isWs = P) (h2 : P.reverse.dropWhile isWs = P.reverse) :
    trimList (P ++ ['\n']) = P := by
  cases P with
  | nil => exact absurd rfl hne
  | cons p P0 =>
    have hp : isWs p = false := head_not_ws p P0 h1
    unfold trimList
    rw [List.cons_append, dropWhile_cons_false p _ hp]
    have hrev : (p :: (P0 ++ ['\n'])).reverse = '\n' :: (p :: P0).reverse := by simp
    rw [hrev, List.dropWhile_cons]
    simp only [show isWs '\n' = true from rfl, if_true]
    rw [h2, List.reverse_reverse]

theorem trim_cons_nl (P : List Char)
    (h1 : P.dropWhile isWs = P) (h2 : P.reverse.dropWhile isWs = P.reverse) :
    trimList ('\n' :: P) = P := by
  unfold trimList
  rw [List.dropWhile_cons]
  simp only [show isWs '\n' = true from rfl, if_true]
  rw [h1, h2, List.reverse_reverse]

theorem trim_cons_nl_append_nl (P : List Char) (hne : P ≠ [])
    (h1 : P.dropWhile isWs = P) (h2 : P.reverse.dropWhile isWs = P.reverse) :
    trimList ('\n' :: (P ++ ['\n'])) = P := by
  cases P with
  | nil => exact absurd rfl hne
  | cons p P0 =>
    have hp : isWs p = false := head_not_ws p P0 h1
    unfold trimList
    rw [List.dropWhile_cons]
    simp only [show isWs '\n' = true from rfl, if_true]
    rw [List.cons_append, dropWhile_cons_false p _ hp]
    have hrev : (p :: (P0 ++ ['\n'])).reverse = '\n' :: (p :: P0).reverse := by simp
    rw [hrev, List.dropWhile_cons]
    simp only [show isWs '\n' = true from rfl, if_true]
    rw [h2, List.reverse_reverse]

/-- A payload wrapped in the code-fence markers the generator typically
emits: `"```json\n" + P + "\n```"`. -/
def wrapFence (P : List Char) : List Char :=
  jsonFencePat ++ '\n' :: (P ++ '\n' :: tickPat)

/-- A payload preceded by a reasoning block:
`"<think>" + R + "</think>" + "\n" + X`. -/
def wrapThink (R X : List Char) : List Char :=
  thinkOpen ++ (R ++ (thinkClose ++ '\n' :: X))

theorem isPrefixOf_head_ne (p : Char) (pt : List Char) (c : Char) (cs : List Char)
    (h : (p == c) = false) : (p :: pt).isPrefixOf (c :: cs) = false := by
  simp [List.isPrefixOf, h]

theorem occursB_cons_false (pat : List Char) (c : Char) (cs : List Char)
    (h1 : pat.isPrefixOf (c :: cs) = false) (h2 : occursB pat cs = false) :
    occursB pat (c :: cs) = false := by
  rw [occursB_cons, h1, h2]
  rfl

theorem not_occurs_thinkOpen_wrapFence (P : List Char)
    (hThink : occursB thinkOpen P = false) :
    occursB thinkOpen (wrapFence P) = false := by
  unfold wrapFence
  have hnl : ('\n' : Char) ∉ thinkOpen := by decide
  rw [occursB_append_cons thinkOpen jsonFencePat (P ++ '\n' :: tickPat) '\n' hnl]
  have hjf : occursB thinkOpen jsonFencePat = false := by decide
  rw [hjf, Bool.false_or]
  apply occursB_cons_false
  · exact isPrefixOf_head_ne '<' ['t', 'h', 'i', 'n', 'k', '>'] '\n' _ (by decide)
  · rw [occursB_append_cons thinkOpen P tickPat '\n' hnl, hThink]
    have ht : occursB thinkOpen ('\n' :: tickPat) = false := by decide
    rw [ht]
    rfl

theorem not_occurs_jsonFence_suffix (P : List Char)
    (hTick : occursB tickPat P = false) :
    occursB jsonFencePat (P ++ '\n' :: tickPat) = false := by
  have hnl : ('\n' : Char) ∉ jsonFencePat := by decide
  rw [occursB_append_cons jsonFencePat P tickPat '\n' hnl]
  rw [occursB_mono tickPat jsonFencePat P (by decide) hTick]
  have ht : occursB jsonFencePat ('\n' :: tickPat) = false := by decide
  rw [ht]
  rfl

theorem dropWhile_reverse_append (X P : List Char) (hne : P ≠ [])
    (h2 : P.reverse.dropWhile isWs = P.reverse) :
    (X ++ P).reverse.dropWhile isWs = (X ++ P).reverse := by
  rw [List.reverse_append]
  cases hrev : P.reverse with
  | nil => exact absurd (List.reverse_eq_nil_iff.mp hrev) hne
  | cons q Q =>
    rw [hrev] at h2
    rw [List.cons_append]
    exact dropWhile_cons_false q _ (head_not_ws q Q h2)

theorem clean_of_trimmed (P : List Char)
    (h1 : P.dropWhile isWs = P) (h2 : P.reverse.dropWhile isWs = P.reverse)
    (hTick : occursB tickPat P = false) (hThink : occursB thinkOpen P = false) :
    cleanResponse P = P := by
  unfold cleanResponse
  rw [trim_eq_self P h1 h2]
  unfold stripThink
  rw [stripThinkF_id P.length P hThink]
  unfold stripJsonFences
  rw [stripJsonFencesF_id P.length P (occursB_mono tickPat jsonFencePat P (by decide) hTick)]
  rw [stripTrailingFence_id P hTick]
  exact trim_eq_self P h1 h2

theorem stripJsonFences_wrapFence (P : List Char) (hne : P ≠ [])
    (h1 : P.dropWhile isWs = P) (hTick : occursB tickPat P = false) :
    stripJsonFences (wrapFence P) = P ++ '\n' :: tickPat := by
  unfold stripJsonFences
  have hlen : (wrapFence P).length = (P.length + 11) + 1 := by
    simp only [wrapFence, List.length_append, List.length_cons]
    simp only [jsonFencePat, tickPat, List.length_cons, List.length_nil]
    omega
  rw [hlen]
  show stripJsonFencesF (P.length + 11 + 1) (jsonFencePat ++ ('\n' :: (P ++ '\n' :: tickPat))) = _
  rw [stripJsonFencesF_front]
  rw [List.dropWhile_cons]
  simp only [show isWs '\n' = true from rfl, if_true]
  cases P with
  | nil => exact absurd rfl hne
  | cons p P0 =>
    rw [List.cons_append, dropWhile_cons_false p _ (head_not_ws p P0 h1), ← List.cons_append]
    exact stripJsonFencesF_id _ _ (not_occurs_jsonFence_suffix (p :: P0) hTick)

theorem clean_wrapFence (P : List Char) (hne : P ≠ [])
    (h1 : P.dropWhile isWs = P) (h2 : P.reverse.dropWhile isWs = P.reverse)
    (hTick : occursB tickPat P = false) (hThink : occursB thinkOpen P = false) :
    cleanResponse (wrapFence P) = P := by
  have htrim1 : trimList (wrapFence P) = wrapFence P := by
    apply trim_eq_self
    · have e : wrapFence P
          = tick :: ([tick, tick, 'j', 's', 'o', 'n'] ++ '\n' :: (P ++ '\n' :: tickPat)) := rfl
      rw [e]
      exact dropWhile_cons_false tick _ (by decide)
    · have eW : wrapFence P = (jsonFencePat ++ '\n' :: (P ++ ['\n'])) ++ tickPat := by
        simp [wrapFence, List.append_assoc]
      rw [eW]
      exact dropWhile_reverse_append _ tickPat (by decide) (by decide)
  have hthink : stripThink (wrapFence P) = wrapFence P := by
    unfold stripThink
    exact stripThinkF_id _ _ (not_occurs_thinkOpen_wrapFence P hThink)
  have hfence : stripJsonFences (wrapFence P) = P ++ '\n' :: tickPat :=
    stripJsonFences_wrapFence P hne h1 hTick
  have htrail : stripTrailingFence (P ++ '\n' :: tickPat) = P ++ ['\n'] :=
    stripTrailingFence_walk P hTick
  have htrim2 : trimList (P ++ ['\n']) = P := trim_append_nl P hne h1 h2
  unfold cleanResponse
  rw [htrim1, hthink, hfence, htrail, htrim2]

theorem clean_wrapThink (P R : List Char) (hne : P ≠ [])
    (h1 : P.dropWhile isWs = P) (h2 : P.reverse.dropWhile isWs = P.reverse)
    (hTick : occursB tickPat P = false) (hThink : occursB thinkOpen P = false)
    (hR : '<' ∉ R) :
    cleanResponse (wrapThink R P) = P := by
  have htrim1 : trimList (wrapThink R P) = wrapThink R P := by
    apply trim_eq_self
    · have e : wrapThink R P
          = '<' :: (['t', 'h', 'i', 'n', 'k', '>'] ++ (R ++ (thinkClose ++ '\n' :: P))) := rfl
      rw [e]
      exact dropWhile_cons_false '<' _ (by decide)
    · have eW : wrapThink R P = (thinkOpen ++ (R ++ (thinkClose ++ ['\n']))) ++ P := by
        simp [wrapThink, List.append_assoc]
      rw [eW]
      exact dropWhile_reverse_append _ P hne h2
  have hthink : stripThink (wrapThink R P) = '\n' :: P := by
    unfold stripThink
    have hlen : (wrapThink R P).length = (R.length + P.length + 15) + 1 := by
      simp only [wrapThink, List.length_append, List.length_cons]
      simp only [thinkOpen, thinkClose, List.length_cons, List.length_nil]
      omega
    rw [hlen]
    show stripThinkF (R.length + P.length + 15 + 1) (thinkOpen ++ (R ++ (thinkClose ++ '\n' :: P))) = _
    rw [stripThinkF_front, findClose_append ('\n' :: P) R hR]
    exact stripThinkF_id _ _ (occursB_cons_false thinkOpen '\n' P
      (isPrefixOf_head_ne '<' ['t', 'h', 'i', 'n', 'k', '>'] '\n' P (by decide)) hThink)
  have hsjf : stripJsonFences ('\n' :: P) = '\n' :: P := by
    unfold stripJsonFences
    exact stripJsonFencesF_id _ _ (occursB_cons_false jsonFencePat '\n' P
      (isPrefixOf_head_ne tick [tick, tick, 'j', 's', 'o', 'n'] '\n' P (by decide))
      (occursB_mono tickPat jsonFencePat P (by decide) hTick))
  have hstf : stripTrailingFence ('\n' :: P) = '\n' :: P :=
    stripTrailingFence_id _ (occursB_cons_false tickPat '\n' P
      (isPrefixOf_head_ne tick [tick, tick] '\n' P (by decide)) hTick)
  have htrim2 : trimList ('\n' :: P) = P := trim_cons_nl P h1 h2
  unfold cleanResponse
  rw [htrim1, hthink, hsjf, hstf, htrim2]

theorem clean_wrapThinkFence (P R : List Char) (hne : P ≠ [])
    (h1 : P.dropWhile isWs = P) (h2 : P.reverse.dropWhile isWs = P.reverse)
    (hTick : occursB tickPat P = false) (hThink : occursB thinkOpen P = false)
    (hR : '<' ∉ R) :
    cleanResponse (wrapThink R (wrapFence P)) = P := by
  have htrim1 : trimList (wrapThink R (wrapFence P)) = wrapThink R (wrapFence P) := by
    apply trim_eq_self
    · have e : wrapThink R (wrapFence P)
          = '<' :: (['t', 'h', 'i', 'n', 'k', '>']
              ++ (R ++ (thinkClose ++ '\n' :: wrapFence P))) := rfl
      rw [e]
      exact dropWhile_cons_false '<' _ (by decide)
    · have eW : wrapThink R (wrapFence P)
          = (thinkOpen ++ (R ++ (thinkClose
              ++ '\n' :: (jsonFencePat ++ '\n' :: (P ++ ['\n']))))) ++ tickPat := by
        simp [wrapThink, wrapFence, List.append_assoc]
      rw [eW]
      exact dropWhile_reverse_append _ tickPat (by decide) (by decide)
  have hthink : stripThink (wrapThink R (wrapFence P)) = '\n' :: wrapFence P := by
    unfold stripThink
    have hlen : (wrapThink R (wrapFence P)).length
        = (R.length + P.length + 27) + 1 := by
      simp only [wrapThink, wrapFence, List.length_append, List.length_cons]
      simp only [thinkOpen, thinkClose, jsonFencePat, tickPat, List.length_cons,
        List.length_nil]
      omega
    rw [hlen]
    show stripThinkF (R.length + P.length + 27 + 1)
        (thinkOpen ++ (R ++ (thinkClose ++ '\n' :: wrapFence P))) = _
    rw [stripThinkF_front, findClose_append ('\n' :: wrapFence P) R hR]
    exact stripThinkF_id _ _ (occursB_cons_false thinkOpen '\n' (wrapFence P)
      (isPrefixOf_head_ne '<' ['t', 'h', 'i', 'n', 'k', '>'] '\n' (wrapFence P) (by decide))
      (not_occurs_thinkOpen_wrapFence P hThink))
  have hsjf : stripJsonFences ('\n' :: wrapFence P) = '\n' :: (P ++ '\n' :: tickPat) := by
    unfold stripJsonFences
    rw [List.length_cons]
    rw [stripJsonFencesF_cons_neg _ _ _
      (isPrefixOf_head_ne tick [tick, tick, 'j', 's', 'o', 'n'] '\n' (wrapFence P) (by decide))]
    rw [show stripJsonFencesF (wrapFence P).length (wrapFence P)
        = stripJsonFences (wrapFence P) from rfl]
    rw [stripJsonFences_wrapFence P hne h1 hTick]
  have hstf : stripTrailingFence ('\n' :: (P ++ '\n' :: tickPat)) = '\n' :: (P ++ ['\n']) := by
    rw [stripTrailingFence_cons]
    have hpre : tickPat.isPrefixOf ('\n' :: (P ++ '\n' :: tickPat)) = false :=
      isPrefixOf_head_ne tick [tick, tick] '\n' _ (by decide)
    simp only [hpre, Bool.false_and, Bool.false_eq_true, if_false]
    rw [stripTrailingFence_walk P hTick]
  have htrim2 : trimList ('\n' :: (P ++ ['\n'])) = P := trim_cons_nl_append_nl P hne h1 h2
  unfold cleanResponse
  rw [htrim1, hthink, hsjf, hstf, htrim2]

/-- Claim C7: for every well-formed structured (JSON) payload `P` — trimmed,
not itself containing the fence marker `` ``` `` or the `<think>` tag — and
every reasoning text `R` without an angle bracket, parsing `P` wrapped in
code-fence markers and/or a reasoning-delimiter block yields exactly the
same Structured Result as parsing the bare payload: the cleaning pipeline
removes the wrapping and both calls parse the identical cleaned string. -/
theorem c7_wrapping_invariance (P R : List Char) (hne : P ≠ [])
    (h1 : P.dropWhile isWs = P) (h2 : P.reverse.dropWhile isWs = P.reverse)
    (hTick : occursB tickPat P = false) (hThink : occursB thinkOpen P = false)
    (hR : '<' ∉ R) (_hwf : (jsonParse P).isSome = true) :
    parseAIResponse (wrapFence P) = parseAIResponse P
    ∧ parseAIResponse (wrapThink R P) = parseAIResponse P
    ∧ parseAIResponse (wrapThink R (wrapFence P)) = parseAIResponse P := by
  have hbare : cleanResponse P = P := clean_of_trimmed P h1 h2 hTick hThink
  refine ⟨?_, ?_, ?_⟩
  · unfold parseAIResponse
    rw [clean_wrapFence P hne h1 h2 hTick hThink, hbare]
  · unfold parseAIResponse
    rw [clean_wrapThink P R hne h1 h2 hTick hThink hR, hbare]
  · unfold parseAIResponse
    rw [clean_wrapThinkFence P R hne h1 h2 hTick hThink hR, hbare]

def c7Payload : List Char := "\x7b\"score\": 5, \"summary\": \"ok\"\x7d".toList
def c7Reason : List Char := "chain of thought".toList

theorem c7_witness :
    parseAIResponse (wrapFence c7Payload) = parseAIResponse c7Payload
    ∧ parseAIResponse (wrapThink c7Reason c7Payload) = parseAIResponse c7Payload
    ∧ parseAIResponse (wrapThink c7Reason (wrapFence c7Payload)) = parseAIResponse c7Payload :=
  c7_wrapping_invariance c7Payload c7Reason (by decide) (by decide) (by decide)
    (by decide) (by decide) (by decide) (by decide)
